import Mathlib

/-!
Verification of `clean_m3u.py`: an M3U playlist cleaner that parses a
playlist into header lines plus (metadata line, URL line) entries,
probes each URL, and writes the surviving entries to an output file.

The embedding works over lists of characters (`PyStr`), models the
file-reading step (Python text mode with universal newlines plus the
source's `rstrip("\n")`), the parser `parse_m3u`, the probe `test_url`
(over an explicit outcome type, since the network is external), and the
cleaning pipeline `clean_m3u` (validation loop, header fix-up, output
lines).
-/

/-- Python strings are modelled as lists of characters. -/
abbrev PyStr := List Char

/-- Whitespace recognised by the model of Python `str.strip()`
(the ASCII whitespace characters; playlist lines contain no exotic
Unicode whitespace). -/
def isSpaceChar (c : Char) : Bool :=
  c == ' ' || c == '\t' || c == '\n' || c == '\r' ||
    c == Char.ofNat 11 || c == Char.ofNat 12

/-- Model of Python `str.strip()`: remove leading and trailing whitespace. -/
def pyStrip (s : PyStr) : PyStr :=
  ((s.dropWhile isSpaceChar).reverse.dropWhile isSpaceChar).reverse

/-- Model of Python `s.startswith(p)`. -/
def pyStartsWith : PyStr → PyStr → Bool
  | _, [] => true
  | [], _ :: _ => false
  | c :: cs, p :: ps => c == p && pyStartsWith cs ps

/-- The metadata marker `#EXTINF` (source lines 28 and 33). -/
def EXTINF : PyStr := "#EXTINF".data

/-- The playlist marker `#EXTM3U` (source lines 117-118). -/
def EXTM3U : PyStr := "#EXTM3U".data

/-- The comment marker `#` (source line 41). -/
def HASH : PyStr := "#".data

/-- Line splitting as performed by reading the file in Python text mode
(source line 15) followed by the comprehension at source line 16:
universal-newline decoding translates a CRLF pair and a lone CR to a
newline, iteration splits at newlines, and the trailing newline of each
yielded line is stripped.  The net effect is a split at CRLF, CR or LF,
with no empty final fragment. -/
def splitLinesAux : List Char → List Char → List PyStr
  | [], acc => if acc.isEmpty then [] else [acc.reverse]
  | '\r' :: '\n' :: rest, acc => acc.reverse :: splitLinesAux rest []
  | '\r' :: rest, acc => acc.reverse :: splitLinesAux rest []
  | '\n' :: rest, acc => acc.reverse :: splitLinesAux rest []
  | c :: rest, acc => splitLinesAux rest (c :: acc)

/-- The list of lines `parse_m3u` works on, from the raw file content
(source lines 15-16). -/
def pyReadLines (content : List Char) : List PyStr :=
  splitLinesAux content []

/-- A line whose stripped form starts with `#EXTINF`
(source lines 25, 28 and 33). -/
def isExtinf (l : PyStr) : Bool := pyStartsWith (pyStrip l) EXTINF

/-- The inner scan of `parse_m3u` (source lines 37-45): starting after
the metadata line, skip blank lines and `#`-comment lines; the first
other line is the URL, returned with the lines after it.  `none` models
the dangling case where the scan reaches end-of-file with no URL found
(`url_line` stays empty, source lines 37 and 50-52). -/
def findUrl : List PyStr → Option (PyStr × List PyStr)
  | [] => none
  | l :: ls =>
    if (pyStrip l).isEmpty || pyStartsWith (pyStrip l) HASH then findUrl ls
    else some (l, ls)

theorem findUrl_length {ls : List PyStr} {u : PyStr} {r : List PyStr}
    (h : findUrl ls = some (u, r)) : r.length < ls.length := by
  induction ls with
  | nil => simp [findUrl] at h
  | cons l ls ih =>
    rw [findUrl] at h
    by_cases hc : ((pyStrip l).isEmpty || pyStartsWith (pyStrip l) HASH) = true
    · rw [if_pos hc] at h
      exact Nat.lt_succ_of_lt (ih h)
    · rw [if_neg hc] at h
      cases h
      exact Nat.lt_succ_self _

/-- Entry extraction of `parse_m3u` after the header (source lines
24-57): an `#EXTINF` line searches forward for its URL; on success the
entry is emitted and scanning resumes right after the URL line
(`i = j + 1`, source line 49); a dangling `#EXTINF` is discarded and
scanning resumes on the next line (`i += 1`, source line 52); any other
line after the first marker is skipped (source line 56). -/
def parseEntries : List PyStr → List (PyStr × PyStr)
  | [] => []
  | l :: ls =>
    if isExtinf l then
      match hfu : findUrl ls with
      | some (u, r) => (l, u) :: parseEntries r
      | none => parseEntries ls
    else parseEntries ls
termination_by ls => ls.length
decreasing_by
  · exact Nat.lt_succ_of_lt (findUrl_length hfu)
  · exact Nat.lt_succ_self _
  · exact Nat.lt_succ_self _

/-- Single-pass reformulation of the entry scan, used to evaluate
`parseEntries` on concrete inputs (the two agree: `parseEntries_eq`):
the pending `#EXTINF` line, if any, is carried while its URL is being
searched for. -/
def parseEntriesAux : Option PyStr → List PyStr → List (PyStr × PyStr)
  | _, [] => []
  | none, l :: ls =>
    if isExtinf l then parseEntriesAux (some l) ls else parseEntriesAux none ls
  | some m, l :: ls =>
    if (pyStrip l).isEmpty || pyStartsWith (pyStrip l) HASH then
      parseEntriesAux (some m) ls
    else (m, l) :: parseEntriesAux none ls

/-- `parse_m3u` (source lines 9-58) on the list of lines read from the
file: lines before the first `#EXTINF` line form the header (source
lines 28-31), the rest is scanned for entries. -/
def parse_m3u (lines : List PyStr) : List PyStr × List (PyStr × PyStr) :=
  (lines.takeWhile (fun l => !isExtinf l),
    parseEntries (lines.dropWhile (fun l => !isExtinf l)))

/-- Computable companion of `parse_m3u` (same function, see
`parse_m3u_eq_computed`); used to evaluate parses on concrete inputs. -/
def parseComputed (lines : List PyStr) : List PyStr × List (PyStr × PyStr) :=
  (lines.takeWhile (fun l => !isExtinf l),
    parseEntriesAux none (lines.dropWhile (fun l => !isExtinf l)))

/-- `parse_m3u` applied to a file's character content
(source lines 15-16 feed line 24). -/
def parseFile (content : List Char) : List PyStr × List (PyStr × PyStr) :=
  parse_m3u (pyReadLines content)

/-- Result of `resp.read(1024)` (source line 80): either the read
raised, or it returned the leading bytes of the body. -/
inductive ReadResult where
  | readErr : ReadResult
  | bytes : List Nat → ReadResult

/-- Outcome of one HTTP probe, the part of `test_url` that is decided
by the network: `urlopen` raised (URLError, HTTPError, timeout, or any
other exception, source lines 85-89), or a response arrived with its
status, whose body read may itself fail.  These constructors cover the
raising paths inside the `try` of source line 73; the `ValueError` that
`Request` construction (source lines 66-72, before the `try`) can
itself raise is modelled separately, by `test_url_run`. -/
inductive ProbeOutcome where
  | openErr : ProbeOutcome
  | opened : Int → ReadResult → ProbeOutcome

/-- The `try` block of `test_url` (source lines 73-89), for a request
that was constructed successfully: every raising path inside the `try`
is a constructor of `ProbeOutcome` mapped to `false`.  The `Request`
construction of source lines 66-72 runs before the `try` and can itself
raise; the whole function is `test_url_run`. -/
def test_url : ProbeOutcome → Bool
  | .openErr => false
  | .opened status rr =>
    if status < 200 ∨ 300 ≤ status then false
    else
      match rr with
      | .readErr => false
      | .bytes body => if (body.take 1024).isEmpty then false else true

/-- True when the loop in `clean_m3u` breaks at 1-based index `idx`
(source lines 100-101). -/
def exceedsMax (maxChannels : Option Int) (idx : Nat) : Bool :=
  match maxChannels with
  | some k => decide ((idx : Int) > k)
  | none => false

/-- The validation loop of `clean_m3u` (source lines 97-112), collecting
`working_entries`: `outcomes idx` is the network's response to the
probe of the `idx`-th (1-based) entry. -/
def cleanLoop (outcomes : Nat → ProbeOutcome) (maxChannels : Option Int) :
    Nat → List (PyStr × PyStr) → List (PyStr × PyStr)
  | _, [] => []
  | idx, e :: es =>
    if exceedsMax maxChannels idx then []
    else if test_url (outcomes idx) then
      e :: cleanLoop outcomes maxChannels (idx + 1) es
    else cleanLoop outcomes maxChannels (idx + 1) es

/-- The entries on which `clean_m3u` invokes `test_url`, in order:
every loop iteration that does not break probes its entry
(source line 104). -/
def probedEntries (maxChannels : Option Int) :
    Nat → List (PyStr × PyStr) → List (PyStr × PyStr)
  | _, [] => []
  | idx, e :: es =>
    if exceedsMax maxChannels idx then []
    else e :: probedEntries maxChannels (idx + 1) es

/-- Header fix-up of `clean_m3u` (source lines 117-118): prepend the
marker when there is no header line or the first header line, stripped,
does not start with `#EXTM3U`. -/
def ensureHeader (headerLines : List PyStr) : List PyStr :=
  match headerLines with
  | [] => [EXTM3U]
  | h0 :: _ =>
    if pyStartsWith (pyStrip h0) EXTM3U then headerLines
    else EXTM3U :: headerLines

/-- The condition under which `clean_m3u` prepends the marker
(source line 117). -/
def missingMarker (headerLines : List PyStr) : Bool :=
  match headerLines with
  | [] => true
  | h0 :: _ => !pyStartsWith (pyStrip h0) EXTM3U

/-- The two output lines of one surviving entry (source lines 123-125). -/
def writeEntryLines : List (PyStr × PyStr) → List PyStr
  | [] => []
  | (extinf, url) :: es => extinf :: url :: writeEntryLines es

/-- The sequence of lines `clean_m3u` writes to the output file
(source lines 116-125): fixed-up header, then the two lines of each
surviving entry. -/
def outputLines (outcomes : Nat → ProbeOutcome) (maxChannels : Option Int)
    (lines : List PyStr) : List PyStr :=
  ensureHeader (parse_m3u lines).1 ++
    writeEntryLines (cleanLoop outcomes maxChannels 1 (parse_m3u lines).2)

/-- Each output line is written followed by a newline
(source lines 122, 124, 125). -/
def serializeLines (ls : List PyStr) : List Char :=
  (ls.map (fun l => l ++ ['\n'])).flatten

/-- Full text of the output file of `clean_m3u` on a given input file
content. -/
def cleanOutputText (outcomes : Nat → ProbeOutcome) (maxChannels : Option Int)
    (content : List Char) : List Char :=
  serializeLines (outputLines outcomes maxChannels (pyReadLines content))

/-- The line sequence of the M3U text serialized from a
(header, entries) pair: header lines, then each entry's metadata line
followed by its URL line. -/
def entryLines (es : List (PyStr × PyStr)) : List PyStr :=
  es.flatMap (fun e => [e.1, e.2])

/-- The M3U text serialized from a (header, entries) pair, every line
newline-terminated. -/
def serializePlaylist (header : List PyStr) (es : List (PyStr × PyStr)) :
    List Char :=
  serializeLines (header ++ entryLines es)

/-- The observable blocking effects of one `clean_m3u` call, in program
order: the input parse (source line 93), one probe per loop iteration
that does not break (source line 104), and the output write (source
lines 120-125). -/
inductive Eff where
  | parseEff : Eff
  | probeEff : Nat → Eff
  | writeEff : Eff
deriving DecidableEq

/-- The probe effects of the validation loop, one per probed entry. -/
def probeTrace (maxChannels : Option Int) :
    Nat → List (PyStr × PyStr) → List Eff
  | _, [] => []
  | idx, _ :: es =>
    if exceedsMax maxChannels idx then []
    else Eff.probeEff idx :: probeTrace maxChannels (idx + 1) es

/-- Effect trace of a completed `clean_m3u` call: the write is the
final effect, strictly after the whole validation loop (the output
file is only opened at source line 120). -/
def cleanTrace (maxChannels : Option Int) (es : List (PyStr × PyStr)) :
    List Eff :=
  Eff.parseEff :: (probeTrace maxChannels 1 es ++ [Eff.writeEff])

/-- `main` (source lines 146-150): `interruptAt = some k` means a
KeyboardInterrupt is raised just before the `k`-th effect of the trace
begins; the top-level handler prints one line and the process exits
with status 1, so only the first `k` effects ran.  `none` is an
uninterrupted run, exit status 0.  Result: (exit status, effects that
ran). -/
def mainRun (interruptAt : Option Nat) (maxChannels : Option Int)
    (es : List (PyStr × PyStr)) : Nat × List Eff :=
  match interruptAt with
  | none => (0, cleanTrace maxChannels es)
  | some k =>
    if k < (cleanTrace maxChannels es).length then
      (1, (cleanTrace maxChannels es).take k)
    else (0, cleanTrace maxChannels es)

theorem parseEntriesAux_some (m : PyStr) :
    ∀ ls : List PyStr,
      parseEntriesAux (some m) ls =
        match findUrl ls with
        | some (u, r) => (m, u) :: parseEntriesAux none r
        | none => [] := by
  intro ls
  induction ls with
  | nil => rfl
  | cons l ls ih =>
    rw [parseEntriesAux, findUrl]
    by_cases hc : ((pyStrip l).isEmpty || pyStartsWith (pyStrip l) HASH) = true
    · rw [if_pos hc, if_pos hc, ih]
    · rw [if_neg hc, if_neg hc]

theorem findUrl_none_cond {l : PyStr} {ls : List PyStr}
    (h : findUrl (l :: ls) = none) :
    ((pyStrip l).isEmpty || pyStartsWith (pyStrip l) HASH) = true ∧
      findUrl ls = none := by
  rw [findUrl] at h
  by_cases hc : ((pyStrip l).isEmpty || pyStartsWith (pyStrip l) HASH) = true
  · rw [if_pos hc] at h
    exact ⟨hc, h⟩
  · rw [if_neg hc] at h
    cases h

theorem parseEntries_nil_of_none {ls : List PyStr}
    (h : findUrl ls = none) : parseEntries ls = [] := by
  induction ls with
  | nil => rw [parseEntries]
  | cons l ls ih =>
    obtain ⟨hc, hn⟩ := findUrl_none_cond h
    rw [parseEntries]
    by_cases hx : isExtinf l
    · rw [if_pos hx, hn]
      exact ih hn
    · rw [if_neg hx]
      exact ih hn

theorem parseEntries_eq_aux :
    ∀ (n : Nat) (ls : List PyStr), ls.length ≤ n →
      parseEntriesAux none ls = parseEntries ls := by
  intro n
  induction n with
  | zero =>
    intro ls h
    cases ls with
    | nil => rw [parseEntries]; rfl
    | cons l ls => simp at h
  | succ n ih =>
    intro ls h
    cases ls with
    | nil => rw [parseEntries]; rfl
    | cons l ls =>
      rw [parseEntries, parseEntriesAux]
      by_cases hx : isExtinf l
      · rw [if_pos hx, if_pos hx, parseEntriesAux_some]
        cases hfu : findUrl ls with
        | none =>
          exact (parseEntries_nil_of_none hfu).symm
        | some ur =>
          obtain ⟨u, r⟩ := ur
          have hr : r.length ≤ n := by
            have := findUrl_length hfu
            simp at h
            omega
          simp only [ih r hr]
      · rw [if_neg hx, if_neg hx]
        apply ih
        simp at h
        omega

theorem parseEntries_eq (ls : List PyStr) :
    parseEntries ls = parseEntriesAux none ls :=
  (parseEntries_eq_aux ls.length ls (Nat.le_refl _)).symm

theorem parse_m3u_eq_computed (lines : List PyStr) :
    parse_m3u lines = parseComputed lines := by
  rw [parse_m3u, parseComputed, parseEntries_eq]

theorem cleanLoop_sublist (outcomes : Nat → ProbeOutcome)
    (maxChannels : Option Int) :
    ∀ (es : List (PyStr × PyStr)) (idx : Nat),
      (cleanLoop outcomes maxChannels idx es).Sublist es := by
  intro es
  induction es with
  | nil => intro idx; exact List.Sublist.refl _
  | cons e es ih =>
    intro idx
    rw [cleanLoop]
    by_cases hb : exceedsMax maxChannels idx
    · rw [if_pos hb]
      exact List.nil_sublist _
    · rw [if_neg hb]
      by_cases ht : test_url (outcomes idx)
      · rw [if_pos ht]
        exact List.Sublist.cons₂ e (ih (idx + 1))
      · rw [if_neg ht]
        exact List.Sublist.cons e (ih (idx + 1))

theorem writeEntryLines_eq (es : List (PyStr × PyStr)) :
    writeEntryLines es = es.flatMap (fun e => [e.1, e.2]) := by
  induction es with
  | nil => rfl
  | cons e es ih =>
    obtain ⟨m, u⟩ := e
    simp [writeEntryLines, ih]

theorem probedEntries_some (k : Int) :
    ∀ (es : List (PyStr × PyStr)) (idx : Nat),
      probedEntries (some k) idx es = es.take (k + 1 - idx).toNat := by
  intro es
  induction es with
  | nil => intro idx; rw [probedEntries, List.take_nil]
  | cons e es ih =>
    intro idx
    rw [probedEntries]
    by_cases hb : exceedsMax (some k) idx
    · rw [if_pos hb]
      have hk : (k + 1 - idx).toNat = 0 := by
        rw [exceedsMax] at hb
        simp at hb
        omega
      rw [hk]
      rfl
    · rw [if_neg hb]
      have hk : (k + 1 - idx).toNat = (k + 1 - (idx + 1)).toNat + 1 := by
        rw [exceedsMax] at hb
        simp at hb
        omega
      rw [hk, List.take_succ_cons, ih (idx + 1)]
      push_cast
      rfl

theorem cleanLoop_sublist_probed (outcomes : Nat → ProbeOutcome)
    (maxChannels : Option Int) :
    ∀ (es : List (PyStr × PyStr)) (idx : Nat),
      (cleanLoop outcomes maxChannels idx es).Sublist
        (probedEntries maxChannels idx es) := by
  intro es
  induction es with
  | nil => intro idx; exact List.Sublist.refl _
  | cons e es ih =>
    intro idx
    rw [cleanLoop, probedEntries]
    by_cases hb : exceedsMax maxChannels idx
    · rw [if_pos hb, if_pos hb]
    · rw [if_neg hb, if_neg hb]
      by_cases ht : test_url (outcomes idx)
      · rw [if_pos ht]
        exact List.Sublist.cons₂ e (ih (idx + 1))
      · rw [if_neg ht]
        exact List.Sublist.cons e (ih (idx + 1))

theorem cleanLoop_zero (outcomes : Nat → ProbeOutcome)
    (es : List (PyStr × PyStr)) :
    cleanLoop outcomes (some 0) 1 es = [] := by
  cases es with
  | nil => rw [cleanLoop]
  | cons e es =>
    rw [cleanLoop]
    rw [if_pos (by rw [exceedsMax]; decide)]

theorem probeTrace_no_write (maxChannels : Option Int) :
    ∀ (es : List (PyStr × PyStr)) (idx : Nat),
      Eff.writeEff ∉ probeTrace maxChannels idx es := by
  intro es
  induction es with
  | nil => intro idx h; rw [probeTrace] at h; cases h
  | cons e es ih =>
    intro idx h
    rw [probeTrace] at h
    by_cases hb : exceedsMax maxChannels idx
    · rw [if_pos hb] at h
      cases h
    · rw [if_neg hb] at h
      cases h with
      | tail _ h2 => exact ih (idx + 1) h2

theorem cleanTrace_write_last (maxChannels : Option Int)
    (es : List (PyStr × PyStr)) :
    (cleanTrace maxChannels es).getLast? = some Eff.writeEff := by
  rw [cleanTrace]
  rw [show Eff.parseEff :: (probeTrace maxChannels 1 es ++ [Eff.writeEff]) =
    (Eff.parseEff :: probeTrace maxChannels 1 es) ++ [Eff.writeEff] from rfl]
  exact List.getLast?_concat _

theorem cleanTrace_take_no_write (maxChannels : Option Int)
    (es : List (PyStr × PyStr)) (k : Nat)
    (hk : k < (cleanTrace maxChannels es).length) :
    Eff.writeEff ∉ (cleanTrace maxChannels es).take k := by
  have hsplit : cleanTrace maxChannels es =
      (Eff.parseEff :: probeTrace maxChannels 1 es) ++ [Eff.writeEff] := rfl
  rw [hsplit] at hk ⊢
  have hlen : k ≤ (Eff.parseEff :: probeTrace maxChannels 1 es).length := by
    simp at hk
    simp
    omega
  rw [List.take_append_of_le_length hlen]
  intro hmem
  have hmem2 : Eff.writeEff ∈ Eff.parseEff :: probeTrace maxChannels 1 es :=
    (List.take_sublist _ _).subset hmem
  cases hmem2 with
  | tail _ h2 => exact probeTrace_no_write maxChannels es 1 h2

theorem splitLinesAux_clean :
    ∀ (cs acc : List Char),
      (∀ c ∈ acc, c ≠ '\r' ∧ c ≠ '\n') →
      ∀ l ∈ splitLinesAux cs acc, ∀ c ∈ l, c ≠ '\r' ∧ c ≠ '\n' := by
  intro cs acc
  induction cs, acc using splitLinesAux.induct with
  | case1 acc hacc =>
    intro h l hl
    rw [splitLinesAux.eq_1, if_pos hacc] at hl
    cases hl
  | case2 acc hacc =>
    intro h l hl
    rw [splitLinesAux.eq_1, if_neg hacc] at hl
    have hle : l = acc.reverse := by
      cases hl with
      | head => rfl
      | tail _ h2 => cases h2
    subst hle
    intro c hc
    exact h c (List.mem_reverse.mp hc)
  | case3 rest acc ih =>
    intro h l hl
    rw [splitLinesAux.eq_2] at hl
    cases hl with
    | head => intro c hc; exact h c (List.mem_reverse.mp hc)
    | tail _ h2 => exact ih (by intro c hc; cases hc) l h2
  | case4 rest acc hg ih =>
    intro h l hl
    rw [splitLinesAux.eq_3 _ _ hg] at hl
    cases hl with
    | head => intro c hc; exact h c (List.mem_reverse.mp hc)
    | tail _ h2 => exact ih (by intro c hc; cases hc) l h2
  | case5 rest acc ih =>
    intro h l hl
    rw [splitLinesAux.eq_4] at hl
    cases hl with
    | head => intro c hc; exact h c (List.mem_reverse.mp hc)
    | tail _ h2 => exact ih (by intro c hc; cases hc) l h2
  | case6 c rest acc hg1 hg2 hg3 ih =>
    intro h l hl
    rw [splitLinesAux.eq_5 _ _ _ hg1 hg2 hg3] at hl
    refine ih ?_ l hl
    intro c2 hc2
    cases hc2 with
    | head => exact ⟨fun he => hg2 he, fun he => hg3 he⟩
    | tail _ h2 => exact h c2 h2

theorem pyReadLines_clean (content : List Char) :
    ∀ l ∈ pyReadLines content, ∀ c ∈ l, c ≠ '\r' ∧ c ≠ '\n' :=
  splitLinesAux_clean content [] (by intro c hc; cases hc)

theorem serializeLines_cons (l : PyStr) (L : List PyStr) :
    serializeLines (l :: L) = l ++ '\n' :: serializeLines L := by
  rw [serializeLines, List.map_cons, List.flatten_cons, List.append_assoc]
  rfl

theorem splitLinesAux_line (l : PyStr) :
    ∀ (rest acc : List Char),
      (∀ c ∈ l, c ≠ '\r' ∧ c ≠ '\n') →
      splitLinesAux (l ++ '\n' :: rest) acc =
        (acc.reverse ++ l) :: splitLinesAux rest [] := by
  induction l with
  | nil =>
    intro rest acc h
    rw [List.nil_append, splitLinesAux.eq_4, List.append_nil]
  | cons c l ih =>
    intro rest acc h
    have hc := h c (List.mem_cons_self c l)
    have hg2 : c = '\r' → False := fun he => hc.1 he
    have hg3 : c = '\n' → False := fun he => hc.2 he
    have hg1 : ∀ rest1 : List Char,
        c = '\r' → (l ++ '\n' :: rest) = '\n' :: rest1 → False :=
      fun _ he _ => hc.1 he
    rw [List.cons_append, splitLinesAux.eq_5 _ _ _ hg1 hg2 hg3,
      ih rest (c :: acc) (fun c2 h2 => h c2 (List.mem_cons_of_mem _ h2)),
      List.reverse_cons, List.append_assoc]
    rfl

theorem pyReadLines_serialize :
    ∀ L : List PyStr, (∀ l ∈ L, ∀ c ∈ l, c ≠ '\r' ∧ c ≠ '\n') →
      pyReadLines (serializeLines L) = L := by
  intro L
  induction L with
  | nil => intro h; rfl
  | cons l L ih =>
    intro h
    rw [serializeLines_cons, pyReadLines,
      splitLinesAux_line l (serializeLines L) []
        (h l (List.mem_cons_self l L)),
      List.reverse_nil, List.nil_append]
    rw [show splitLinesAux (serializeLines L) [] = pyReadLines (serializeLines L) from rfl,
      ih (fun l2 h2 => h l2 (List.mem_cons_of_mem _ h2))]

theorem parseEntriesAux_inv :
    ∀ (ls : List PyStr) (pend : Option PyStr),
      (∀ m, pend = some m → isExtinf m = true) →
      ∀ e ∈ parseEntriesAux pend ls,
        isExtinf e.1 = true ∧ (pyStrip e.2).isEmpty = false ∧
          pyStartsWith (pyStrip e.2) HASH = false := by
  intro ls
  induction ls with
  | nil =>
    intro pend hp e he
    rw [parseEntriesAux] at he
    cases he
  | cons l ls ih =>
    intro pend hp e he
    cases pend with
    | none =>
      rw [parseEntriesAux] at he
      by_cases hx : isExtinf l
      · rw [if_pos hx] at he
        exact ih (some l) (fun m hm => by cases hm; exact hx) e he
      · rw [if_neg hx] at he
        exact ih none (fun m hm => by cases hm) e he
    | some m =>
      rw [parseEntriesAux] at he
      by_cases hcond : ((pyStrip l).isEmpty || pyStartsWith (pyStrip l) HASH) = true
      · rw [if_pos hcond] at he
        exact ih (some m) hp e he
      · rw [if_neg hcond] at he
        simp only [Bool.or_eq_true, not_or, Bool.not_eq_true] at hcond
        cases he with
        | head => exact ⟨hp m rfl, hcond.1, hcond.2⟩
        | tail _ h2 => exact ih none (fun m2 hm => by cases hm) e h2

theorem parseEntriesAux_mem :
    ∀ (ls : List PyStr) (pend : Option PyStr) (e : PyStr × PyStr),
      e ∈ parseEntriesAux pend ls →
        (e.1 ∈ ls ∨ pend = some e.1) ∧ e.2 ∈ ls := by
  intro ls
  induction ls with
  | nil =>
    intro pend e he
    rw [parseEntriesAux] at he
    cases he
  | cons l ls ih =>
    intro pend e he
    cases pend with
    | none =>
      rw [parseEntriesAux] at he
      by_cases hx : isExtinf l
      · rw [if_pos hx] at he
        obtain ⟨h1, h2⟩ := ih (some l) e he
        refine ⟨?_, List.mem_cons_of_mem _ h2⟩
        cases h1 with
        | inl hm => exact Or.inl (List.mem_cons_of_mem _ hm)
        | inr hm => cases hm; exact Or.inl (List.mem_cons_self _ _)
      · rw [if_neg hx] at he
        obtain ⟨h1, h2⟩ := ih none e he
        refine ⟨?_, List.mem_cons_of_mem _ h2⟩
        cases h1 with
        | inl hm => exact Or.inl (List.mem_cons_of_mem _ hm)
        | inr hm => cases hm
    | some m =>
      rw [parseEntriesAux] at he
      by_cases hcond : ((pyStrip l).isEmpty || pyStartsWith (pyStrip l) HASH) = true
      · rw [if_pos hcond] at he
        obtain ⟨h1, h2⟩ := ih (some m) e he
        refine ⟨?_, List.mem_cons_of_mem _ h2⟩
        cases h1 with
        | inl hm => exact Or.inl (List.mem_cons_of_mem _ hm)
        | inr hm => exact Or.inr hm
      · rw [if_neg hcond] at he
        cases he with
        | head => exact ⟨Or.inr rfl, List.mem_cons_self _ _⟩
        | tail _ h2 =>
          obtain ⟨h1, h2b⟩ := ih none e h2
          refine ⟨?_, List.mem_cons_of_mem _ h2b⟩
          cases h1 with
          | inl hm => exact Or.inl (List.mem_cons_of_mem _ hm)
          | inr hm => cases hm

theorem takeWhile_append_all {α : Type} (p : α → Bool) :
    ∀ (h rest : List α), (∀ l ∈ h, p l = true) →
      (h ++ rest).takeWhile p = h ++ rest.takeWhile p := by
  intro h
  induction h with
  | nil => intro rest hp; rfl
  | cons a h ih =>
    intro rest hp
    rw [List.cons_append, List.takeWhile_cons,
      if_pos (hp a (List.mem_cons_self a h)), ih rest
        (fun l hl => hp l (List.mem_cons_of_mem _ hl)), List.cons_append]

theorem dropWhile_append_all {α : Type} (p : α → Bool) :
    ∀ (h rest : List α), (∀ l ∈ h, p l = true) →
      (h ++ rest).dropWhile p = rest.dropWhile p := by
  intro h
  induction h with
  | nil => intro rest hp; rfl
  | cons a h ih =>
    intro rest hp
    rw [List.cons_append, List.dropWhile_cons,
      if_pos (hp a (List.mem_cons_self a h))]
    exact ih rest (fun l hl => hp l (List.mem_cons_of_mem _ hl))

theorem dropWhile_head_false {α : Type} (p : α → Bool) :
    ∀ (l : List α) (x : α) (xs : List α),
      l.dropWhile p = x :: xs → p x = false := by
  intro l
  induction l with
  | nil => intro x xs h; cases h
  | cons a l ih =>
    intro x xs h
    rw [List.dropWhile_cons] at h
    by_cases hp : p a = true
    · rw [if_pos hp] at h
      exact ih x xs h
    · rw [if_neg hp] at h
      cases h
      cases hb : p a with
      | false => rfl
      | true => exact absurd hb hp

theorem entryLines_cons (e : PyStr × PyStr) (es : List (PyStr × PyStr)) :
    entryLines (e :: es) = e.1 :: e.2 :: entryLines es := by
  simp [entryLines]

theorem parseEntriesAux_entryLines :
    ∀ es : List (PyStr × PyStr),
      (∀ e ∈ es, isExtinf e.1 = true ∧ (pyStrip e.2).isEmpty = false ∧
        pyStartsWith (pyStrip e.2) HASH = false) →
      parseEntriesAux none (entryLines es) = es := by
  intro es
  induction es with
  | nil => intro h; rfl
  | cons e es ih =>
    obtain ⟨m, u⟩ := e
    intro h
    have hm := h (m, u) (List.mem_cons_self _ _)
    rw [entryLines_cons, parseEntriesAux, if_pos hm.1, parseEntriesAux]
    have hcond : ¬(((pyStrip u).isEmpty || pyStartsWith (pyStrip u) HASH) = true) := by
      rw [hm.2.1, hm.2.2]
      simp
    rw [if_neg hcond, ih (fun e2 h2 => h e2 (List.mem_cons_of_mem _ h2))]

theorem parse_m3u_header_all (lines : List PyStr) :
    ∀ l ∈ (parse_m3u lines).1, isExtinf l = false := by
  intro l hl
  rw [parse_m3u] at hl
  have := List.mem_takeWhile_imp hl
  simpa using this

theorem parse_m3u_header_mem (lines : List PyStr) :
    ∀ l ∈ (parse_m3u lines).1, l ∈ lines := by
  intro l hl
  rw [parse_m3u] at hl
  exact (List.takeWhile_sublist _).subset hl

theorem parse_m3u_inv (lines : List PyStr) :
    ∀ e ∈ (parse_m3u lines).2,
      isExtinf e.1 = true ∧ (pyStrip e.2).isEmpty = false ∧
        pyStartsWith (pyStrip e.2) HASH = false := by
  intro e he
  rw [parse_m3u, parseEntries_eq] at he
  exact parseEntriesAux_inv _ none (fun m hm => by cases hm) e he

theorem parse_m3u_mem (lines : List PyStr) :
    ∀ e ∈ (parse_m3u lines).2, e.1 ∈ lines ∧ e.2 ∈ lines := by
  intro e he
  rw [parse_m3u, parseEntries_eq] at he
  obtain ⟨h1, h2⟩ := parseEntriesAux_mem _ none e he
  have hsub : ∀ x : PyStr, x ∈ lines.dropWhile (fun l => !isExtinf l) →
      x ∈ lines := fun x hx => (List.dropWhile_sublist _).subset hx
  cases h1 with
  | inl hm => exact ⟨hsub _ hm, hsub _ h2⟩
  | inr hm => cases hm

theorem entryLines_mem :
    ∀ (es : List (PyStr × PyStr)) (l : PyStr), l ∈ entryLines es →
      ∃ e, e ∈ es ∧ (l = e.1 ∨ l = e.2) := by
  intro es
  induction es with
  | nil => intro l hl; cases hl
  | cons e es ih =>
    intro l hl
    rw [entryLines_cons] at hl
    cases hl with
    | head => exact ⟨e, List.mem_cons_self _ _, Or.inl rfl⟩
    | tail _ h2 =>
      cases h2 with
      | head => exact ⟨e, List.mem_cons_self _ _, Or.inr rfl⟩
      | tail _ h3 =>
        obtain ⟨e2, hm, hor⟩ := ih l h3
        exact ⟨e2, List.mem_cons_of_mem _ hm, hor⟩

theorem roundtrip_core (h : List PyStr) (es : List (PyStr × PyStr))
    (hh : ∀ l ∈ h, isExtinf l = false)
    (hes : ∀ e ∈ es, isExtinf e.1 = true ∧ (pyStrip e.2).isEmpty = false ∧
      pyStartsWith (pyStrip e.2) HASH = false) :
    parse_m3u (h ++ entryLines es) = (h, es) := by
  have hp : ∀ l ∈ h, (fun l => !isExtinf l) l = true := by
    intro l hl
    simp [hh l hl]
  have h1 : (h ++ entryLines es).takeWhile (fun l => !isExtinf l) = h := by
    rw [takeWhile_append_all _ h _ hp]
    cases es with
    | nil => simp [entryLines]
    | cons e es =>
      rw [entryLines_cons, List.takeWhile_cons,
        if_neg (by simp [(hes e (List.mem_cons_self _ _)).1]), List.append_nil]
  have h2 : (h ++ entryLines es).dropWhile (fun l => !isExtinf l) =
      entryLines es := by
    rw [dropWhile_append_all _ h _ hp]
    cases es with
    | nil => simp [entryLines]
    | cons e es =>
      rw [entryLines_cons, List.dropWhile_cons,
        if_neg (by simp [(hes e (List.mem_cons_self _ _)).1])]
  rw [parse_m3u, h1, h2, parseEntries_eq, parseEntriesAux_entryLines es hes]

theorem ensureHeader_cons (h0 : PyStr) (t : List PyStr) :
    ensureHeader (h0 :: t) =
      if pyStartsWith (pyStrip h0) EXTM3U then h0 :: t
      else EXTM3U :: h0 :: t := rfl

theorem missingMarker_cons (h0 : PyStr) (t : List PyStr) :
    missingMarker (h0 :: t) = !pyStartsWith (pyStrip h0) EXTM3U := rfl

/-- C5: parsing round-trips: for every input file content, serializing
the (header, entries) pair produced by `parse_m3u` back to M3U text
(header lines, then each entry as its metadata line followed by its URL
line, each newline-terminated) and parsing that text again yields the
same (header, entries) pair. -/
theorem parse_serialize_roundtrip (content : List Char) :
    parseFile
        (serializePlaylist (parseFile content).1 (parseFile content).2) =
      parseFile content := by
  simp only [parseFile]
  have hclean : ∀ l ∈ (parse_m3u (pyReadLines content)).1 ++
      entryLines (parse_m3u (pyReadLines content)).2,
      ∀ c ∈ l, c ≠ '\r' ∧ c ≠ '\n' := by
    intro l hl
    rw [List.mem_append] at hl
    cases hl with
    | inl hl =>
      exact pyReadLines_clean content l
        (parse_m3u_header_mem (pyReadLines content) l hl)
    | inr hl =>
      obtain ⟨e, hm, hor⟩ := entryLines_mem _ l hl
      obtain ⟨h1, h2⟩ := parse_m3u_mem (pyReadLines content) e hm
      cases hor with
      | inl heq =>
        subst heq
        exact pyReadLines_clean content _ h1
      | inr heq =>
        subst heq
        exact pyReadLines_clean content _ h2
  rw [serializePlaylist, pyReadLines_serialize _ hclean,
    roundtrip_core _ _ (parse_m3u_header_all _) (parse_m3u_inv _)]

/-- C1 counterexample: on the input file `"#EXTM3U extra\n"` the first
line written by `clean_m3u` is `"#EXTM3U extra"`, not exactly
`"#EXTM3U"`: the claim that the output's first line is always exactly
the marker is false when the first header line carries trailing text
(the code only checks a trimmed-startswith condition, source line 117). -/
theorem clean_first_line_cex :
    (outputLines (fun _ => ProbeOutcome.openErr) none
        (pyReadLines "#EXTM3U extra\n".data)).headD [] =
      "#EXTM3U extra".data ∧
      "#EXTM3U extra".data ≠ EXTM3U := by
  constructor
  · simp only [outputLines, parse_m3u_eq_computed]
    decide
  · decide

/-- C1 (amended): the output of `clean_m3u` always has a first line and
that first line, trimmed, starts with `#EXTM3U`; whenever the input's
first header line (trimmed) does not already start with that marker (or
there is no header line at all), the first line is exactly `#EXTM3U`.
It is not always exactly `#EXTM3U`: see `clean_first_line_cex`. -/
theorem clean_first_line_marker (outcomes : Nat → ProbeOutcome)
    (maxChannels : Option Int) (lines : List PyStr) :
    outputLines outcomes maxChannels lines ≠ [] ∧
      pyStartsWith
        (pyStrip ((outputLines outcomes maxChannels lines).headD []))
        EXTM3U = true ∧
      (missingMarker (parse_m3u lines).1 = true →
        (outputLines outcomes maxChannels lines).headD [] = EXTM3U) := by
  rw [outputLines]
  generalize (parse_m3u lines).1 = H
  cases H with
  | nil =>
    refine ⟨by simp [ensureHeader], ?_, ?_⟩
    · rw [show ensureHeader [] = [EXTM3U] from rfl, List.singleton_append,
        List.headD_cons]
      decide
    · intro _
      rw [show ensureHeader [] = [EXTM3U] from rfl]
      rfl
  | cons h0 t =>
    by_cases hc : pyStartsWith (pyStrip h0) EXTM3U = true
    · rw [ensureHeader_cons, if_pos hc]
      refine ⟨by simp, ?_, ?_⟩
      · rw [List.cons_append]
        exact hc
      · intro hmm
        rw [missingMarker_cons, hc] at hmm
        cases hmm
    · rw [ensureHeader_cons, if_neg hc]
      refine ⟨by simp, ?_, ?_⟩
      · rw [List.cons_append, List.headD_cons]
        decide
      · intro _
        rw [List.cons_append]
        rfl

theorem clean_first_line_marker_wit :
    (outputLines (fun _ => ProbeOutcome.openErr) none [['x']]).headD [] =
      EXTM3U :=
  (clean_first_line_marker (fun _ => ProbeOutcome.openErr) none [['x']]).2.2
    (by rw [parse_m3u_eq_computed]; decide)

/-- C3: for every input playlist and every pattern of probe outcomes,
the surviving entries written by `clean_m3u` are an order-preserving
subsequence of the parsed entries, so in particular at most as many;
and each surviving entry is written as its two original lines,
unchanged, after the fixed-up header. -/
theorem clean_survivors_sublist (outcomes : Nat → ProbeOutcome)
    (maxChannels : Option Int) (lines : List PyStr) :
    (cleanLoop outcomes maxChannels 1 (parse_m3u lines).2).Sublist
        (parse_m3u lines).2 ∧
      (cleanLoop outcomes maxChannels 1 (parse_m3u lines).2).length ≤
        (parse_m3u lines).2.length ∧
      outputLines outcomes maxChannels lines =
        ensureHeader (parse_m3u lines).1 ++
          (cleanLoop outcomes maxChannels 1 (parse_m3u lines).2).flatMap
            (fun e => [e.1, e.2]) := by
  refine ⟨cleanLoop_sublist outcomes maxChannels _ 1,
    (cleanLoop_sublist outcomes maxChannels _ 1).length_le, ?_⟩
  rw [outputLines, writeEntryLines_eq]

/-- C4: with `maxChannels = k`, the probed entries are exactly the
first `k` (clamped at 0) entries in order, so no entry at 1-based
position beyond `k` is probed, and the survivors are a subsequence of
those first `k` entries, so no such entry can appear in the output;
with `k = 0` nothing is probed and the output is only the fixed-up
header (the `#EXTM3U` marker plus the original header lines), with zero
entries. -/
theorem clean_max_channels (outcomes : Nat → ProbeOutcome) (k : Int)
    (es : List (PyStr × PyStr)) (lines : List PyStr) :
    probedEntries (some k) 1 es = es.take k.toNat ∧
      (cleanLoop outcomes (some k) 1 es).Sublist (es.take k.toNat) ∧
      probedEntries (some 0) 1 es = [] ∧
      outputLines outcomes (some 0) lines =
        ensureHeader (parse_m3u lines).1 := by
  have h1 : probedEntries (some k) 1 es = es.take k.toNat := by
    rw [probedEntries_some k es 1]
    norm_num
  refine ⟨h1, h1 ▸ cleanLoop_sublist_probed outcomes (some k) es 1, ?_, ?_⟩
  · rw [probedEntries_some 0 es 1]
    norm_num
  · rw [outputLines, cleanLoop_zero]
    simp [writeEntryLines]

/-- C6: every entry produced by `parse_m3u` satisfies the invariant:
its metadata line's trimmed form starts with `#EXTINF`, its URL line is
a non-empty string, and the URL line's trimmed form is non-blank and
does not start with `#`. -/
theorem parse_entries_invariant (lines : List PyStr) (e : PyStr × PyStr)
    (he : e ∈ (parse_m3u lines).2) :
    pyStartsWith (pyStrip e.1) EXTINF = true ∧ e.2 ≠ [] ∧
      pyStrip e.2 ≠ [] ∧ pyStartsWith (pyStrip e.2) HASH = false := by
  obtain ⟨h1, h2, h3⟩ := parse_m3u_inv lines e he
  rw [isExtinf] at h1
  have hne : pyStrip e.2 ≠ [] := by
    intro hnil
    rw [hnil] at h2
    simp at h2
  refine ⟨h1, ?_, hne, h3⟩
  intro hnil
  apply hne
  rw [hnil]
  rfl

theorem parse_entries_invariant_wit :
    pyStartsWith (pyStrip ("#EXTINF:-1,A".data : PyStr)) EXTINF = true ∧
      ("http://a".data : PyStr) ≠ [] ∧
      pyStrip ("http://a".data : PyStr) ≠ [] ∧
      pyStartsWith (pyStrip ("http://a".data : PyStr)) HASH = false :=
  parse_entries_invariant
    (pyReadLines "#EXTM3U\n#EXTINF:-1,A\nhttp://a\n".data)
    ("#EXTINF:-1,A".data, "http://a".data)
    (by rw [parse_m3u_eq_computed]; decide)

/-- C7: a `#EXTINF` metadata line with no following non-blank,
non-comment line before end-of-file produces no entry: `parse_m3u`
discards it and resumes scanning at the line immediately after the
metadata line, without failing. -/
theorem dangling_extinf_skip (l : PyStr) (ls : List PyStr)
    (hx : isExtinf l = true) (hn : findUrl ls = none) :
    parseEntries (l :: ls) = parseEntries ls := by
  rw [parseEntries, if_pos hx, hn]

theorem dangling_extinf_skip_wit :
    parseEntries ["#EXTINF:-1,Orphan".data] = parseEntries [] :=
  dangling_extinf_skip "#EXTINF:-1,Orphan".data [] (by decide) (by decide)

/-- C8: `parse_m3u` on an empty file returns an empty header and no
entries; on a file none of whose lines trimmed-start with `#EXTINF`, it
returns every line (verbatim, in order) as header and no entries. -/
theorem parse_empty_no_extinf (lines : List PyStr)
    (h : ∀ l ∈ lines, isExtinf l = false) :
    parseFile [] = ([], []) ∧ parse_m3u lines = (lines, []) := by
  constructor
  · rw [parseFile, parse_m3u_eq_computed]
    rfl
  · have h1 : lines.takeWhile (fun l => !isExtinf l) = lines := by
      have := takeWhile_append_all (fun l => !isExtinf l) lines []
        (fun l hl => by simp [h l hl])
      simpa using this
    have h2 : lines.dropWhile (fun l => !isExtinf l) = [] := by
      have := dropWhile_append_all (fun l => !isExtinf l) lines []
        (fun l hl => by simp [h l hl])
      simpa using this
    rw [parse_m3u, h1, h2, parseEntries_eq]
    rfl

theorem parse_empty_no_extinf_wit :
    parseFile [] = ([], []) ∧
      parse_m3u ["hello".data, "# note".data] =
        (["hello".data, "# note".data], []) :=
  parse_empty_no_extinf ["hello".data, "# note".data] (by decide)

/-- C9: a user interrupt raised at any point before the output-writing
effect makes `main` exit with status 1 and the write effect never runs,
so no output file is written; in an uninterrupted run the write effect
is the very last effect, after the entire validation loop. -/
theorem interrupt_no_output (maxChannels : Option Int)
    (es : List (PyStr × PyStr)) (k : Nat)
    (hk : k < (cleanTrace maxChannels es).length) :
    (mainRun (some k) maxChannels es).1 = 1 ∧
      Eff.writeEff ∉ (mainRun (some k) maxChannels es).2 ∧
      (mainRun none maxChannels es).2.getLast? = some Eff.writeEff := by
  refine ⟨?_, ?_, ?_⟩
  · rw [show mainRun (some k) maxChannels es =
      (if k < (cleanTrace maxChannels es).length then
        (1, (cleanTrace maxChannels es).take k)
      else (0, cleanTrace maxChannels es)) from rfl, if_pos hk]
  · rw [show mainRun (some k) maxChannels es =
      (if k < (cleanTrace maxChannels es).length then
        (1, (cleanTrace maxChannels es).take k)
      else (0, cleanTrace maxChannels es)) from rfl, if_pos hk]
    exact cleanTrace_take_no_write maxChannels es k hk
  · exact cleanTrace_write_last maxChannels es

theorem interrupt_no_output_wit :
    (mainRun (some 1) none []).1 = 1 ∧
      Eff.writeEff ∉ (mainRun (some 1) none []).2 ∧
      (mainRun none none []).2.getLast? = some Eff.writeEff :=
  interrupt_no_output none [] 1 (by decide)

/-- C10 counterexample: on the CRLF input file
`"#EXTM3U\r\n#EXTINF:-1,A\r\nhttp://x\r\n"` the parsed URL line is
`"http://x"` with no carriage return in it: Python's universal-newline
text mode already translated each CRLF to a newline before the
`rstrip("\n")` of source line 16, so the claim that each stored line
retains a trailing carriage-return character is false. -/
theorem crlf_cex :
    (parseFile "#EXTM3U\r\n#EXTINF:-1,A\r\nhttp://x\r\n".data).2 =
        [("#EXTINF:-1,A".data, "http://x".data)] ∧
      '\r' ∉ ("http://x".data : PyStr) := by
  constructor
  · rw [parseFile, parse_m3u_eq_computed]
    decide
  · decide

/-- C10 (amended): for every input file content (in particular CRLF
files), no line stored by `parse_m3u` — header line, metadata line or
URL line — contains a carriage return: universal-newline decoding turns
CRLF and lone CR into the newline that line splitting consumes, so each
URL is passed to `test_url` and written to the output without any CR. -/
theorem crlf_lines_no_cr (content : List Char) :
    (∀ l ∈ (parseFile content).1, '\r' ∉ l) ∧
      ∀ e ∈ (parseFile content).2, '\r' ∉ e.1 ∧ '\r' ∉ e.2 := by
  constructor
  · intro l hl hc
    exact (pyReadLines_clean content l
      (parse_m3u_header_mem (pyReadLines content) l hl) '\r' hc).1 rfl
  · intro e he
    obtain ⟨h1, h2⟩ := parse_m3u_mem (pyReadLines content) e he
    constructor
    · intro hc
      exact (pyReadLines_clean content e.1 h1 '\r' hc).1 rfl
    · intro hc
      exact (pyReadLines_clean content e.2 h2 '\r' hc).1 rfl

theorem crlf_lines_no_cr_wit :
    '\r' ∉ ("#EXTM3U".data : PyStr) :=
  (crlf_lines_no_cr "#EXTM3U\r\n#EXTINF:-1,A\r\nhttp://y\r\n".data).1
    "#EXTM3U".data (by rw [parseFile, parse_m3u_eq_computed]; decide)

